import Mathlib

/-!
# Verification of the oscilloscope CSV data-handling pipeline

A shallow embedding of `data_handler.py` (class `DataHandler`): header-line
detection, CSV loading and validation, column statistics, and filtered export.

Modelling conventions:
* A file's content is a `List String` of its lines (without newline characters);
  reading a file is a function `String → Except String (List String)` from paths
  to either the lines or the message of the raised read error (`FileNotFoundError`,
  `PermissionError`, `UnicodeDecodeError`, ...).
* Python / pandas floats are embedded as exact rationals `ℚ`; `NaN` cells are
  `Option.none`.  This is the "up to floating-point precision" reading that the
  repository's own documentation uses.
* `str.strip()` is `pyStrip` (drop whitespace from both ends),
  `str.split(',')` is `pySplitComma`, and Python's `float(...)` literal syntax
  (sign, decimal digits with single underscores between digits, optional
  fraction and exponent, or the words inf / infinity / nan) is `pyFloatAccepts`.
-/

/-- Drop whitespace characters from both ends of a character list
(model of Python `str.strip()`). -/
def stripList (l : List Char) : List Char :=
  ((l.dropWhile Char.isWhitespace).reverse.dropWhile Char.isWhitespace).reverse

/-- Model of Python `str.strip()`. -/
def pyStrip (s : String) : String :=
  ⟨stripList s.toList⟩

/-- Model of Python `str.split(',')`. -/
def pySplitComma (s : String) : List String :=
  (s.toList.splitOn ',').map (fun cs => (⟨cs⟩ : String))

/-- Join strings with `','` (model of writing one CSV record). -/
def joinComma (parts : List String) : String :=
  ⟨List.intercalate [','] (parts.map String.toList)⟩

/-- A digit character, or (when `u` is set, as in Python's `float`) an
underscore digit separator. -/
def isDigitU (u : Bool) (c : Char) : Bool :=
  c.isDigit || (u && c == '_')

/-- The maximal leading run of digit (and possibly underscore) characters. -/
def digitRun (u : Bool) (cs : List Char) : List Char :=
  cs.takeWhile (isDigitU u)

/-- What remains after the maximal leading digit run. -/
def digitRest (u : Bool) (cs : List Char) : List Char :=
  cs.dropWhile (isDigitU u)

/-- After a digit: the rest of a valid digit run.  An underscore must be
followed by a digit; two consecutive underscores or a trailing underscore are
invalid (Python numeric-literal rule). -/
def runOkAux : List Char → Bool
  | [] => true
  | [c] => c.isDigit
  | c :: d :: cs => if c = '_' then d.isDigit && runOkAux cs else c.isDigit && runOkAux (d :: cs)

/-- A valid digit run: nonempty, starts and ends with a digit, underscores
only singly and between digits. -/
def runOk : List Char → Bool
  | [] => false
  | c :: cs => c.isDigit && runOkAux cs

/-- Remove underscore separators. -/
def digitsOnly (l : List Char) : List Char :=
  l.filter Char.isDigit

/-- The natural number denoted by a list of decimal digit characters. -/
def digitsVal (l : List Char) : ℕ :=
  l.foldl (fun a c => 10 * a + (c.toNat - 48)) 0

/-- Parse a leading digit group: its value, its number of digits, and the rest
of the input.  Fails when the input does not start with a valid digit run. -/
def digitpart (u : Bool) (cs : List Char) : Option (ℕ × ℕ × List Char) :=
  let run := digitRun u cs
  if runOk run then
    some (digitsVal (digitsOnly run), (digitsOnly run).length, digitRest u cs)
  else
    none

/-- Parse an optional exponent part occupying the whole remaining input:
empty input denotes exponent `0`; otherwise `e`/`E`, an optional sign and a
digit group. -/
def pyExpPart (u : Bool) (cs : List Char) : Option ℤ :=
  match cs with
  | [] => some 0
  | c :: rest =>
    if c = 'e' ∨ c = 'E' then
      let sgn : ℤ := if rest.headD ' ' = '-' then -1 else 1
      let rest2 := if rest.headD ' ' = '+' ∨ rest.headD ' ' = '-' then rest.tail else rest
      match digitpart u rest2 with
      | some (v, _, r3) => if r3 = [] then some (sgn * v) else none
      | none => none
    else none

/-- `10 ^ e` as a rational, for an integer exponent. -/
def expFactor (e : ℤ) : ℚ :=
  if 0 ≤ e then (10 : ℚ) ^ e.toNat else 1 / (10 : ℚ) ^ (-e).toNat

/-- Parse an unsigned Python float literal (decimal digits with optional
fraction and exponent) occupying the whole input, to its exact rational
value. -/
def pyNumber (u : Bool) (cs : List Char) : Option ℚ :=
  if cs.headD ' ' = '.' then
    match digitpart u cs.tail with
    | some (v, f, r2) =>
      match pyExpPart u r2 with
      | some e => some ((v : ℚ) / 10 ^ f * expFactor e)
      | none => none
    | none => none
  else
    match digitpart u cs with
    | none => none
    | some (v1, _, r1) =>
      if r1.headD ' ' = '.' then
        match digitpart u r1.tail with
        | some (v2, f, r3) =>
          match pyExpPart u r3 with
          | some e => some (((v1 * 10 ^ f + v2 : ℕ) : ℚ) / 10 ^ f * expFactor e)
          | none => none
        | none =>
          match pyExpPart u r1.tail with
          | some e => some ((v1 : ℚ) * expFactor e)
          | none => none
      else
        match pyExpPart u r1 with
        | some e => some ((v1 : ℚ) * expFactor e)
        | none => none

/-- Strip one leading sign character, returning the sign and the rest. -/
def stripSign (cs : List Char) : ℤ × List Char :=
  if cs.headD ' ' = '+' then (1, cs.tail)
  else if cs.headD ' ' = '-' then (-1, cs.tail)
  else (1, cs)

/-- The special words `inf`, `infinity`, `nan` (case-insensitive) accepted by
Python's `float`. -/
def isInfNan (cs : List Char) : Bool :=
  let l := cs.map Char.toLower
  l = "inf".toList || l = "infinity".toList || l = "nan".toList

/-- Whether Python's `float(s)` succeeds: surrounding whitespace stripped, an
optional sign, then either a special word or a numeric literal. -/
def pyFloatAccepts (s : String) : Bool :=
  let cs := stripList s.toList
  let (_, body) := stripSign cs
  isInfNan body || (pyNumber true body).isSome

/-- A table cell after numeric coercion: a finite value or missing (`NaN`). -/
abbrev Cell := Option ℚ

/-- Model of `pd.to_numeric(·, errors='coerce')` on one cell: the exact
rational value of a finite numeric string, `none` otherwise.  `nan` coerces to
`NaN`, i.e. `none`; the pandas parser does not accept underscore separators,
hence `u := false`.  (An explicit `inf` cell would be a non-missing non-finite
float in pandas; it is folded into `none` here, which is faithful for all
files without infinite literals.) -/
def toNumericCell (s : String) : Cell :=
  let cs := stripList s.toList
  let (sgn, body) := stripSign cs
  if isInfNan body then none
  else (pyNumber false body).map (fun q => (sgn : ℚ) * q)

/-- `primera_parte` of the detector: the first comma-separated field of an
(already stripped) line, stripped. -/
def primeraParte (s : String) : String :=
  pyStrip ((pySplitComma s).headD "")

/-- The scanning loop of `DataHandler.detectar_lineas_encabezado`, carrying the
running physical line index `i` (blank lines included, as Python's
`enumerate` does). -/
def detectarGo : ℕ → List String → ℕ
  | _, [] => 1
  | i, l :: ls =>
    let s := pyStrip l
    if s = "" then detectarGo (i + 1) ls
    else if pyFloatAccepts (primeraParte s) then max 0 (i - 1)
    else detectarGo (i + 1) ls

/-- `DataHandler.detectar_lineas_encabezado` on the lines of an already-read
file: scan for the first line (blank lines skipped) whose leading
comma-separated field parses as a Python float, and return `max 0 (i - 1)` for
its physical index `i`; return the fixed default `1` when no such line
exists. -/
def detectar_lineas_encabezado (lines : List String) : ℕ :=
  detectarGo 0 lines

/-- A freshly parsed frame: column names and rows of raw string cells
(`pd.read_csv` output before numeric coercion). -/
structure RawFrame where
  columns : List String
  rows : List (List String)
deriving DecidableEq, Repr

/-- A numeric frame: column names and rows of numeric-or-missing cells
(the state of `self.df` after `convertir_a_numerico`). -/
structure DataFrame where
  columns : List String
  rows : List (List Cell)
deriving DecidableEq, Repr

/-- Pad a record with empty fields up to the header width (pandas fills
missing trailing fields of a short record with `NaN`). -/
def padTo (n : ℕ) (l : List String) : List String :=
  l ++ List.replicate (n - l.length) ""

/-- Model of `pd.read_csv(path, skiprows=skiprows, header=0, delimiter=',')`:
drop the skipped lines, drop blank lines, take the next line as the header and
split every remaining line on commas.  An empty remainder raises
`EmptyDataError`; a record wider than the header raises a tokenizing error
(the model keeps rectangular-or-narrower inputs, which covers every file this
development evaluates; it does not reproduce the pandas index-inference corner
case for one-field-too-wide first records). -/
def read_csv (lines : List String) (skiprows : ℕ) : Except String RawFrame :=
  let ls := (lines.drop skiprows).filter (fun l => l != "")
  match ls with
  | [] => .error "No columns to parse from file"
  | header :: dataLines =>
    let cols := pySplitComma header
    if dataLines.all (fun r => (pySplitComma r).length ≤ cols.length) then
      .ok { columns := cols, rows := dataLines.map (fun r => padTo cols.length (pySplitComma r)) }
    else .error "Error tokenizing data"

/-- `self.df.columns = self.df.columns.str.strip()`. -/
def stripColumns (rf : RawFrame) : RawFrame :=
  { rf with columns := rf.columns.map pyStrip }

/-- `DataHandler.convertir_a_numerico`: coerce every cell of every column to a
number, unparseable cells becoming missing. -/
def convertir_a_numerico (rf : RawFrame) : DataFrame :=
  { columns := rf.columns, rows := rf.rows.map (fun r => r.map toNumericCell) }

/-- The reasons `DataHandler.validar_datos` rejects a frame; `demasiadosNaN`
carries the exact computed missing-cell percentage. -/
inductive ValidarError where
  | sinDatos
  | pocasColumnas
  | sinFilas
  | demasiadosNaN (pct : ℚ)
deriving DecidableEq, Repr

/-- `self.df.isna().sum().sum()`: the number of missing cells. -/
def nanCount (df : DataFrame) : ℕ :=
  (df.rows.map (fun r => (r.filter (fun c => c.isNone)).length)).sum

/-- `porcentaje_nan` of `validar_datos`: missing cells over
`len(df) * len(df.columns)`, times 100. -/
def porcentajeNaN (df : DataFrame) : ℚ :=
  ((nanCount df : ℚ) / ((df.rows.length : ℚ) * (df.columns.length : ℚ))) * 100

/-- `DataHandler.validar_datos`: reject when no frame is loaded, when there
are fewer than 2 columns, when there are no rows, or when strictly more than
50% of all cells are missing. -/
def validar_datos (odf : Option DataFrame) : Except ValidarError Unit :=
  match odf with
  | none => .error .sinDatos
  | some df =>
    if df.columns.length < 2 then .error .pocasColumnas
    else if df.rows.length = 0 then .error .sinFilas
    else if 50 < porcentajeNaN df then .error (.demasiadosNaN (porcentajeNaN df))
    else .ok ()

/-- Round to the nearest integer, ties to even (the rounding of Python's
`"%.1f"`-style formatting, applied here to the exact rational). -/
def roundHalfEven (q : ℚ) : ℤ :=
  let f := ⌊q⌋
  let d := q - f
  if d < 1 / 2 then f
  else if 1 / 2 < d then f + 1
  else if f % 2 = 0 then f else f + 1

/-- Format a nonnegative rational with one decimal digit, as the f-string
`{porcentaje_nan:.1f}` does (up to the binary representation error of the
source's `float`, which the exact-rational model does not reproduce). -/
def fmt1 (q : ℚ) : String :=
  let n := roundHalfEven (q * 10)
  toString (n / 10) ++ "." ++ toString (n % 10)

/-- The message text of each `validar_datos` exception. -/
def validarMsg : ValidarError → String
  | .sinDatos => "No hay datos cargados"
  | .pocasColumnas => "El archivo debe tener al menos 2 columnas (tiempo y 1 canal)"
  | .sinFilas => "El archivo no contiene datos"
  | .demasiadosNaN p => "El archivo tiene demasiados valores inválidos (" ++ fmt1 p ++ "%)"

/-- The mutable state of a `DataHandler` object. -/
structure DataHandler where
  df : Option DataFrame := none
  archivo_actual : Option String := none
deriving DecidableEq, Repr

/-- The wrapping applied at the bottom of `cargar_csv`:
`raise Exception(f"Error al cargar el archivo: {str(e)}")`. -/
def wrapMsg (e : String) : String :=
  "Error al cargar el archivo: " ++ e

/-- `DataHandler.cargar_csv`, as a state transformer.  `fs` maps a path to the
file's lines or to a read error's message.  Steps, in source order:
set `archivo_actual` to the path; run the header detector (whose file read, on
failure, raises *outside* the `try` block and therefore propagates unwrapped);
inside the `try`: parse with `read_csv` (assigning `self.df` on success),
strip column names, coerce to numeric, validate; any exception raised inside
the `try` is re-raised wrapped by `wrapMsg`. -/
def cargar_csv (h : DataHandler) (fs : String → Except String (List String))
    (ruta : String) : DataHandler × Except String DataFrame :=
  let h1 := { h with archivo_actual := some ruta }
  match fs ruta with
  | .error e => (h1, .error e)
  | .ok lines =>
    let skiprows := detectar_lineas_encabezado lines
    match read_csv lines skiprows with
    | .error e => (h1, .error (wrapMsg e))
    | .ok raw =>
      let df := convertir_a_numerico (stripColumns raw)
      let h2 := { h1 with df := some df }
      match validar_datos (some df) with
      | .error ve => (h2, .error (wrapMsg (validarMsg ve)))
      | .ok _ => (h2, .ok df)

/-- `Series.min()` over exact rationals; `none` models the `NaN` that pandas
returns on an empty series. -/
def listMin (l : List ℚ) : Option ℚ :=
  l.foldl (fun a x => match a with | none => some x | some m => some (min m x)) none

/-- `Series.max()`. -/
def listMax (l : List ℚ) : Option ℚ :=
  l.foldl (fun a x => match a with | none => some x | some m => some (max m x)) none

/-- `Series.mean()`. -/
def listMean (l : List ℚ) : Option ℚ :=
  match l with
  | [] => none
  | _ => some (l.sum / l.length)

/-- The square of `Series.std()` (pandas sample standard deviation,
`ddof=1`): the sample variance.  Kept squared so that the statistic stays in
`ℚ`; the source stores its square root as a float.  `NaN` (here `none`) on
series of length below 2. -/
def sampleVarianza (l : List ℚ) : Option ℚ :=
  match listMean l with
  | none => none
  | some m =>
    if l.length < 2 then none
    else some ((l.map (fun x => (x - m) ^ 2)).sum / ((l.length - 1 : ℕ) : ℚ))

/-- `Series.median()`: middle element of the sorted values, or the mean of the
two middle elements for an even length. -/
def listMedian (l : List ℚ) : Option ℚ :=
  let s := l.insertionSort (· ≤ ·)
  let n := s.length
  if n = 0 then none
  else if n % 2 = 1 then s[n / 2]?
  else
    match s[n / 2 - 1]?, s[n / 2]? with
    | some a, some b => some ((a + b) / 2)
    | _, _ => none

/-- The record built by `obtener_estadisticas`.  `stdCuadrado` is the square
of the source's `'std'` entry (see `sampleVarianza`); every other field is the
exact value of the corresponding dictionary entry. -/
structure Estadisticas where
  minimo : Option ℚ
  maximo : Option ℚ
  promedio : Option ℚ
  stdCuadrado : Option ℚ
  mediana : Option ℚ
  vpp : Option ℚ
deriving DecidableEq, Repr

/-- `self.df[columna]`: the cells of the named column (first occurrence of the
name), row by row. -/
def columnValues (df : DataFrame) (col : String) : List Cell :=
  df.rows.map (fun r => r.getD (df.columns.indexOf col) none)

/-- `Series.dropna()`. -/
def dropna (l : List Cell) : List ℚ :=
  l.filterMap id

/-- `DataHandler.obtener_estadisticas`: `none` when no frame is loaded or the
column name is absent; otherwise the statistics of the column's non-missing
values. -/
def obtener_estadisticas (odf : Option DataFrame) (columna : String) :
    Option Estadisticas :=
  match odf with
  | none => none
  | some df =>
    if columna ∈ df.columns then
      let datos := dropna (columnValues df columna)
      some { minimo := listMin datos
             maximo := listMax datos
             promedio := listMean datos
             stdCuadrado := sampleVarianza datos
             mediana := listMedian datos
             vpp := match listMax datos, listMin datos with
                    | some a, some b => some (a - b)
                    | _, _ => none }
    else none

/-- One decimal digit character. -/
def digitChar (n : ℕ) : Char :=
  Char.ofNat (48 + n)

/-- Fuel-driven most-significant-first decimal digits of a natural number
(structural recursion so that concrete values reduce definitionally). -/
def natDigitsGo : ℕ → ℕ → List Char
  | 0, _ => []
  | fuel + 1, n =>
    if n < 10 then [digitChar n]
    else natDigitsGo fuel (n / 10) ++ [digitChar (n % 10)]

/-- The decimal digit characters of a natural number. -/
def natDigits (n : ℕ) : List Char :=
  natDigitsGo (n + 1) n

/-- Left-pad a character list to length `n`. -/
def leftPad (c : Char) (n : ℕ) (l : List Char) : List Char :=
  List.replicate (n - l.length) c ++ l

/-- The full decimal digit string of `|q|` scaled by `10 ^ q.den`, padded so
that an integer part and `q.den` fractional digits can be split off. -/
def renderDigits (q : ℚ) : List Char :=
  leftPad '0' (q.den + 1) (natDigits (q * (10 : ℚ) ^ q.den).num.natAbs)

/-- Integer-part digits of the rendering of `q`. -/
def renderIp (q : ℚ) : List Char :=
  (renderDigits q).take ((renderDigits q).length - q.den)

/-- Fractional-part digits of the rendering of `q`. -/
def renderFp (q : ℚ) : List Char :=
  (renderDigits q).drop ((renderDigits q).length - q.den)

/-- Decimal rendering of a rational with `q.den` fractional digits: the shape
(sign, integer digits, point, fractional digits) in which `DataFrame.to_csv`
writes a finite float.  For every value a float can hold (denominator dividing
a power of ten) the rendering re-parses to exactly `q`; the exact digit string
differs from the shortest-round-trip form CPython prints, which only affects
the spelling, not the value, of the written file. -/
def renderQ (q : ℚ) : String :=
  ⟨(if q < 0 then ['-'] else []) ++ renderIp q ++ '.' :: renderFp q⟩

/-- How `to_csv` writes one cell: missing cells as the empty field. -/
def renderCell : Cell → String
  | none => ""
  | some q => renderQ q

/-- `DataFrame.to_csv(path, index=False)`: a header record followed by one
record per row, comma-separated. -/
def toCsvLines (df : DataFrame) : List String :=
  joinComma df.columns :: df.rows.map (fun r => joinComma (r.map renderCell))

/-- `self.df[columnas]`: the sub-frame with the named columns in the requested
order. -/
def selectColumns (df : DataFrame) (cols : List String) : DataFrame :=
  { columns := cols
    rows := df.rows.map (fun r => cols.map (fun c => r.getD (df.columns.indexOf c) none)) }

/-- `DataHandler.exportar_datos_filtrados`: fail when no frame is loaded
(before any output is produced); prepend the first column when it was not
requested; fail when a requested column does not exist (`KeyError`); otherwise
return the lines written to the output file. -/
def exportar_datos_filtrados (odf : Option DataFrame) (columnas : List String) :
    Except String (List String) :=
  match odf with
  | none => .error "No hay datos para exportar"
  | some df =>
    match df.columns with
    | [] => .error "index 0 is out of bounds"
    | c0 :: _ =>
      let cols := if c0 ∈ columnas then columnas else c0 :: columnas
      if cols.all (fun c => decide (c ∈ df.columns)) then
        .ok (toCsvLines (selectColumns df cols))
      else .error "KeyError"

/-- C2: `validar_datos` accepts a parsed table exactly when it has at least 2
columns, at least one row, and at most 50% missing cells — so strictly more
than 50% missing (or a shape defect) is the precise rejection condition, a
table with exactly 50% missing cells is accepted, and a missing-fraction
rejection carries the exact computed percentage. -/
theorem c2_validar_criterio (df : DataFrame) :
    (validar_datos (some df) = .ok () ↔
      2 ≤ df.columns.length ∧ 1 ≤ df.rows.length ∧ porcentajeNaN df ≤ 50)
    ∧ (∀ p, validar_datos (some df) = .error (.demasiadosNaN p) →
        p = porcentajeNaN df) := by
  constructor
  · simp only [validar_datos]
    split_ifs with h1 h2 h3
    · simp only [reduceCtorEq, false_iff]
      intro hc
      omega
    · simp only [reduceCtorEq, false_iff]
      intro hc
      omega
    · simp only [reduceCtorEq, false_iff]
      intro hc
      linarith [hc.2.2]
    · simp only [true_iff]
      exact ⟨by omega, by omega, by linarith⟩
  · intro p hp
    simp only [validar_datos] at hp
    split_ifs at hp with h1 h2 h3 <;>
      simp only [reduceCtorEq, Except.error.injEq,
        ValidarError.demasiadosNaN.injEq] at hp
    exact hp.symm

/-- Witness for C2 at a concrete table with 2 columns, 1 row and exactly 50%
missing cells: it is accepted. -/
theorem c2_validar_criterio_witness :
    porcentajeNaN ⟨["t", "c"], [[some 1, none]]⟩ = 50
    ∧ validar_datos (some ⟨["t", "c"], [[some 1, none]]⟩) = .ok () :=
  ⟨by with_unfolding_all decide,
   (c2_validar_criterio ⟨["t", "c"], [[some 1, none]]⟩).1.mpr
     ⟨by decide, by decide, by with_unfolding_all decide⟩⟩

/-- C9: whenever `validar_datos` reaches the missing-percentage division —
that is, whenever it returns success or a missing-fraction rejection — the
two shape checks have already passed, so the denominator
`rows × columns` of `porcentajeNaN` is nonzero. -/
theorem c9_denominador (df : DataFrame)
    (h : validar_datos (some df) = .ok ()
      ∨ ∃ p, validar_datos (some df) = .error (.demasiadosNaN p)) :
    ((df.rows.length : ℚ) * (df.columns.length : ℚ)) ≠ 0 := by
  have hshape : 2 ≤ df.columns.length ∧ 1 ≤ df.rows.length := by
    simp only [validar_datos] at h
    split_ifs at h with h1 h2 h3
    · rcases h with h | ⟨p, h⟩ <;> simp at h
    · rcases h with h | ⟨p, h⟩ <;> simp at h
    · exact ⟨by omega, by omega⟩
    · exact ⟨by omega, by omega⟩
  have h1 : (df.rows.length : ℚ) ≠ 0 := Nat.cast_ne_zero.mpr (by omega)
  have h2 : (df.columns.length : ℚ) ≠ 0 := Nat.cast_ne_zero.mpr (by omega)
  exact mul_ne_zero h1 h2

/-- Witness for C9 at a concrete accepted table. -/
theorem c9_denominador_witness :
    (((⟨["t", "c"], [[some 1, none]]⟩ : DataFrame).rows.length : ℚ)
      * ((⟨["t", "c"], [[some 1, none]]⟩ : DataFrame).columns.length : ℚ)) ≠ 0 :=
  c9_denominador ⟨["t", "c"], [[some 1, none]]⟩
    (Or.inl (by with_unfolding_all rfl))

/-- A one-column table holding the known values 1, 2, 3, 4, 5. -/
def cincoValores : DataFrame :=
  ⟨["c"], [[some 1], [some 2], [some 3], [some 4], [some 5]]⟩

/-- C5: `obtener_estadisticas` returns `none` exactly when no table is loaded
or the named column does not exist; on the column of values 1..5 it returns
minimum 1, maximum 5, mean 3, median 3 and peak-to-peak 4 equal to maximum
minus minimum (with sample variance 5/2, the square of the sample standard
deviation), computed over the non-missing values. -/
theorem c5_estadisticas :
    (∀ c, obtener_estadisticas none c = none)
    ∧ (∀ df c, obtener_estadisticas (some df) c = none ↔ c ∉ df.columns)
    ∧ obtener_estadisticas (some cincoValores) "c" =
        some { minimo := some 1, maximo := some 5, promedio := some 3,
               stdCuadrado := some (5 / 2), mediana := some 3, vpp := some 4 } := by
  refine ⟨fun c => rfl, fun df c => ?_, by with_unfolding_all rfl⟩
  simp only [obtener_estadisticas]
  split_ifs with h <;> simp [h]

/-- The loop of the header detector returns the default 1 when no line's
leading field parses as a float, for every starting index. -/
theorem detectarGo_sin_numerica (i : ℕ) (lines : List String)
    (h : ∀ l ∈ lines, pyStrip l = ""
      ∨ pyFloatAccepts (primeraParte (pyStrip l)) = false) :
    detectarGo i lines = 1 := by
  induction lines generalizing i with
  | nil => rfl
  | cons a ls ih =>
    have ha := h a (List.mem_cons_self a ls)
    simp only [detectarGo]
    split_ifs with hs hacc
    · exact ih (i + 1) (fun l hl => h l (List.mem_cons_of_mem _ hl))
    · rcases ha with ha | ha
      · exact absurd ha hs
      · exact absurd hacc (by simp [ha])
    · exact ih (i + 1) (fun l hl => h l (List.mem_cons_of_mem _ hl))

/-- C7: when no line of the file has a leading field that parses as a
floating-point number, `detectar_lineas_encabezado` returns the fixed
default 1. -/
theorem c7_valor_defecto (lines : List String)
    (h : ∀ l ∈ lines, pyStrip l = ""
      ∨ pyFloatAccepts (primeraParte (pyStrip l)) = false) :
    detectar_lineas_encabezado lines = 1 :=
  detectarGo_sin_numerica 0 lines h

/-- Witness for C7 at a concrete file with no numeric leading field. -/
theorem c7_valor_defecto_witness :
    detectar_lineas_encabezado ["Tiempo,Canal 1", "a,b", ""] = 1 :=
  c7_valor_defecto ["Tiempo,Canal 1", "a,b", ""] (by decide)

/-- Counterexample to C3: in the file `["", "", "1.0,2.0"]` the first
non-blank line has the float-parsing leading field `1.0`, yet the detector
returns 1, not 0 — `enumerate` counts the blank lines, so two leading blank
lines already defeat the claimed behaviour. -/
theorem c3_contraejemplo :
    pyStrip "" = "" ∧ pyStrip "1.0,2.0" ≠ ""
    ∧ pyFloatAccepts (primeraParte (pyStrip "1.0,2.0")) = true
    ∧ detectar_lineas_encabezado ["", "", "1.0,2.0"] ≠ 0
    ∧ detectar_lineas_encabezado ["", "", "1.0,2.0"] = 1 :=
  ⟨rfl, by decide, by decide, by decide, by decide⟩

/-- The loop of the header detector on blank lines followed by a line whose
leading field parses as a float: it answers the predecessor (in `ℕ`) of that
line's physical index, counted from the loop's starting index. -/
theorem detectarGo_blancos (pre : List String) (i : ℕ) (l : String)
    (rest : List String)
    (hpre : ∀ b ∈ pre, pyStrip b = "")
    (hl : pyStrip l ≠ "")
    (hacc : pyFloatAccepts (primeraParte (pyStrip l)) = true) :
    detectarGo i (pre ++ l :: rest) = i + pre.length - 1 := by
  induction pre generalizing i with
  | nil =>
    have step : detectarGo i (l :: rest) = max 0 (i - 1) := by
      simp [detectarGo, hl, hacc]
    simp only [List.nil_append, step, List.length_nil]
    omega
  | cons b pre ih =>
    have hb := hpre b (List.mem_cons_self b pre)
    have step : detectarGo i (b :: (pre ++ l :: rest))
        = detectarGo (i + 1) (pre ++ l :: rest) := by
      simp [detectarGo, hb]
    rw [List.cons_append, step,
      ih (i + 1) (fun x hx => hpre x (List.mem_cons_of_mem _ hx))]
    simp only [List.length_cons]
    omega

/-- C3 amended: for a file whose first non-blank line has a float-parsing
leading field, `detectar_lineas_encabezado` returns `i - 1` truncated at 0,
where `i` is that line's physical index with blank lines counted — hence 0
exactly when at most one blank line precedes it, and `i - 1` (not 0) when
more do. -/
theorem c3_enmendado (pre : List String) (l : String) (rest : List String)
    (hpre : ∀ b ∈ pre, pyStrip b = "")
    (hl : pyStrip l ≠ "")
    (hacc : pyFloatAccepts (primeraParte (pyStrip l)) = true) :
    detectar_lineas_encabezado (pre ++ l :: rest) = pre.length - 1 := by
  have h := detectarGo_blancos pre 0 l rest hpre hl hacc
  simpa [detectar_lineas_encabezado] using h

/-- Witness for the amended C3: two blank lines before the first data line
give offset 1. -/
theorem c3_enmendado_witness :
    detectar_lineas_encabezado (["", ""] ++ "1.0,2.0" :: []) = 2 - 1 :=
  c3_enmendado ["", ""] "1.0,2.0" [] (by decide) (by decide) (by decide)

/-- C6: with no table loaded, export fails (returning no output at all, so
before any file I/O); with a table loaded and a requested column list that
omits the table's first column, the first column is nevertheless written, in
first position, ahead of the requested columns. -/
theorem c6_exportar_primera_columna :
    (∀ cols, exportar_datos_filtrados none cols = .error "No hay datos para exportar")
    ∧ (∀ df c0 rest cols, df.columns = c0 :: rest → c0 ∉ cols →
        (∀ c ∈ cols, c ∈ df.columns) →
        exportar_datos_filtrados (some df) cols
            = .ok (toCsvLines (selectColumns df (c0 :: cols)))
          ∧ (selectColumns df (c0 :: cols)).columns.headD "" = c0) := by
  refine ⟨fun cols => rfl, ?_⟩
  intro df c0 rest cols hcols hnotmem hsub
  rcases df with ⟨columns, rows⟩
  simp only at hcols
  subst hcols
  have hall : ((c0 :: cols).all
      (fun c => decide (c ∈ (DataFrame.mk (c0 :: rest) rows).columns))) = true := by
    simp only [List.all_eq_true, decide_eq_true_eq]
    intro c hc
    rcases List.mem_cons.mp hc with rfl | hc
    · exact List.mem_cons_self _ _
    · exact hsub c hc
  refine ⟨?_, rfl⟩
  simp only [exportar_datos_filtrados, if_neg hnotmem, hall, if_true]

/-- Witness for C6 at a concrete loaded table and a request omitting the
first column. -/
theorem c6_exportar_primera_columna_witness :
    exportar_datos_filtrados (some ⟨["t", "a", "b"], [[some 1, some 2, some 3]]⟩) ["b"]
      = .ok (toCsvLines (selectColumns ⟨["t", "a", "b"], [[some 1, some 2, some 3]]⟩
          ("t" :: ["b"]))) :=
  (c6_exportar_primera_columna.2 ⟨["t", "a", "b"], [[some 1, some 2, some 3]]⟩
    "t" ["a", "b"] ["b"] rfl (by decide) (by decide)).1

/-- C10: when the requested column list already contains the table's first
column anywhere in it, export writes exactly the requested columns in the
requested order — the first column is not moved to the front. -/
theorem c10_exportar_orden (df : DataFrame) (c0 : String) (rest cols : List String)
    (hcols : df.columns = c0 :: rest) (hmem : c0 ∈ cols)
    (hsub : ∀ c ∈ cols, c ∈ df.columns) :
    exportar_datos_filtrados (some df) cols
      = .ok (toCsvLines (selectColumns df cols)) := by
  rcases df with ⟨columns, rows⟩
  simp only at hcols
  subst hcols
  have hall : (cols.all
      (fun c => decide (c ∈ (DataFrame.mk (c0 :: rest) rows).columns))) = true := by
    simp only [List.all_eq_true, decide_eq_true_eq]
    exact hsub
  simp only [exportar_datos_filtrados, if_pos hmem, hall, if_true]

/-- Witness for C10: requesting `["b", "t"]` on a table whose first column is
`t` keeps the order `b, t`. -/
theorem c10_exportar_orden_witness :
    exportar_datos_filtrados (some ⟨["t", "b"], [[some 1, some 2]]⟩) ["b", "t"]
      = .ok (toCsvLines (selectColumns ⟨["t", "b"], [[some 1, some 2]]⟩ ["b", "t"])) :=
  c10_exportar_orden ⟨["t", "b"], [[some 1, some 2]]⟩ "t" ["b"] ["b", "t"]
    rfl (by decide) (by decide)

/-- A file whose parsed table is rejected by validation (header-only after
the detector's skip). -/
def fsInvalido : String → Except String (List String) :=
  fun _ => .ok ["t,c", "x,y"]

/-- A file system on which every read raises. -/
def fsFalla : String → Except String (List String) :=
  fun _ => .error "No such file or directory"

/-- Counterexample to C1: starting from a fresh handler (no table, no
remembered path), a load that fails validation leaves the handler with BOTH
`archivo_actual` set to the attempted path and `df` replaced by the newly
parsed (invalid) table — the prior state is not preserved on failure. -/
theorem c1_contraejemplo :
    (cargar_csv ⟨none, none⟩ fsInvalido "datos.csv").2
      = .error (wrapMsg (validarMsg .sinFilas))
    ∧ (cargar_csv ⟨none, none⟩ fsInvalido "datos.csv").1.archivo_actual
      ≠ (none : Option String)
    ∧ (cargar_csv ⟨none, none⟩ fsInvalido "datos.csv").1.df ≠ (none : Option DataFrame) :=
  ⟨by with_unfolding_all rfl, by with_unfolding_all decide, by with_unfolding_all decide⟩

/-- C1 amended: `cargar_csv` always records the attempted path in
`archivo_actual`, success or failure; `df` is left untouched exactly when the
failure happens before a table is parsed (file-read failure or parse
failure), and is replaced by the newly parsed table as soon as parsing
succeeds — in particular also when validation subsequently fails. -/
theorem c1_enmendado (h : DataHandler) (fs : String → Except String (List String))
    (ruta : String) :
    ((cargar_csv h fs ruta).1.archivo_actual = some ruta)
    ∧ (∀ e, fs ruta = .error e → (cargar_csv h fs ruta).1.df = h.df)
    ∧ (∀ lines e, fs ruta = .ok lines →
        read_csv lines (detectar_lineas_encabezado lines) = .error e →
        (cargar_csv h fs ruta).1.df = h.df)
    ∧ (∀ lines raw, fs ruta = .ok lines →
        read_csv lines (detectar_lineas_encabezado lines) = .ok raw →
        (cargar_csv h fs ruta).1.df
          = some (convertir_a_numerico (stripColumns raw))) := by
  refine ⟨?_, ?_, ?_, ?_⟩
  · cases hfs : fs ruta with
    | error e => simp [cargar_csv, hfs]
    | ok lines =>
      cases hr : read_csv lines (detectar_lineas_encabezado lines) with
      | error e => simp [cargar_csv, hfs, hr]
      | ok raw =>
        cases hv : validar_datos (some (convertir_a_numerico (stripColumns raw))) with
        | error ve => simp [cargar_csv, hfs, hr, hv]
        | ok u => simp [cargar_csv, hfs, hr, hv]
  · intro e hfs
    simp [cargar_csv, hfs]
  · intro lines e hfs hr
    simp [cargar_csv, hfs, hr]
  · intro lines raw hfs hr
    cases hv : validar_datos (some (convertir_a_numerico (stripColumns raw))) with
    | error ve => simp [cargar_csv, hfs, hr, hv]
    | ok u => simp [cargar_csv, hfs, hr, hv]

/-- Witness for the amended C1: a read failure records the new path but keeps
the old table. -/
theorem c1_enmendado_witness :
    (cargar_csv ⟨some cincoValores, some "viejo.csv"⟩ fsFalla "nuevo.csv").1.archivo_actual
      = some "nuevo.csv"
    ∧ (cargar_csv ⟨some cincoValores, some "viejo.csv"⟩ fsFalla "nuevo.csv").1.df
      = some cincoValores :=
  ⟨(c1_enmendado ⟨some cincoValores, some "viejo.csv"⟩ fsFalla "nuevo.csv").1,
   (c1_enmendado ⟨some cincoValores, some "viejo.csv"⟩ fsFalla "nuevo.csv").2.1
     "No such file or directory" rfl⟩

/-- Counterexample to C4: a read failure raised while the header detector
opens the file (here: every read fails with "No such file or directory")
propagates verbatim — the resulting error is NOT the wrapped LoadError form
the claim asserts for all lower-level read failures. -/
theorem c4_contraejemplo :
    (cargar_csv ⟨none, none⟩ fsFalla "datos.csv").2 = .error "No such file or directory"
    ∧ "No such file or directory" ≠ wrapMsg "No such file or directory" :=
  ⟨rfl, by decide⟩

/-- C4 amended: failures raised inside the `try` block — parse failures and
validation failures — are wrapped into the LoadError form with the underlying
message preserved, but a read failure raised while the header detector opens
and reads the file propagates unwrapped (its message is preserved verbatim,
with no LoadError wrapping). -/
theorem c4_enmendado (h : DataHandler) (fs : String → Except String (List String))
    (ruta : String) :
    (∀ e, fs ruta = .error e → (cargar_csv h fs ruta).2 = .error e)
    ∧ (∀ lines e, fs ruta = .ok lines →
        read_csv lines (detectar_lineas_encabezado lines) = .error e →
        (cargar_csv h fs ruta).2 = .error (wrapMsg e))
    ∧ (∀ lines raw ve, fs ruta = .ok lines →
        read_csv lines (detectar_lineas_encabezado lines) = .ok raw →
        validar_datos (some (convertir_a_numerico (stripColumns raw))) = .error ve →
        (cargar_csv h fs ruta).2 = .error (wrapMsg (validarMsg ve))) := by
  refine ⟨?_, ?_, ?_⟩
  · intro e hfs
    simp [cargar_csv, hfs]
  · intro lines e hfs hr
    simp [cargar_csv, hfs, hr]
  · intro lines raw ve hfs hr hv
    simp [cargar_csv, hfs, hr, hv]

/-- Witness for the amended C4: one unwrapped header-detector read failure and
one wrapped validation failure. -/
theorem c4_enmendado_witness :
    (cargar_csv ⟨none, none⟩ fsFalla "d.csv").2 = .error "No such file or directory"
    ∧ (cargar_csv ⟨none, none⟩ fsInvalido "d.csv").2
      = .error (wrapMsg (validarMsg .sinFilas)) :=
  ⟨(c4_enmendado ⟨none, none⟩ fsFalla "d.csv").1 "No such file or directory" rfl,
   (c4_enmendado ⟨none, none⟩ fsInvalido "d.csv").2.2 ["t,c", "x,y"] ⟨["x", "y"], []⟩
     .sinFilas rfl (by with_unfolding_all rfl) (by with_unfolding_all rfl)⟩

/-- A valid loadable table whose first row has a missing first-column cell. -/
def tablaNaN : DataFrame :=
  ⟨["t", "ch1"], [[none, some 5], [some 1, some 2]]⟩

/-- The source file that loads to `tablaNaN`. -/
def fsOriginal : String → Except String (List String) :=
  fun _ => .ok ["t,ch1", "nan,5.0", "1.0,2.0"]

/-- A file system holding the export of `tablaNaN`. -/
def fsExportado : String → Except String (List String) :=
  fun _ => .ok (toCsvLines tablaNaN)

/-- Counterexample to C8: `tablaNaN` is validly loaded (25% missing cells),
but its first row's first cell is missing, so the exported file's second line
starts with an empty field; on reload the header detector skips one line too
many, the first data row is consumed as the header, and the reloaded table
has 1 row instead of 2 — the export/reload round trip does not preserve the
row count. -/
theorem c8_contraejemplo :
    (cargar_csv ⟨none, none⟩ fsOriginal "orig.csv").2 = .ok tablaNaN
    ∧ exportar_datos_filtrados (some tablaNaN) tablaNaN.columns = .ok (toCsvLines tablaNaN)
    ∧ (cargar_csv ⟨none, none⟩ fsExportado "out.csv").2
      = .ok ⟨["", "5.0"], [[some 1, some 2]]⟩
    ∧ (⟨["", "5.0"], [[some 1, some 2]]⟩ : DataFrame).rows.length ≠ tablaNaN.rows.length :=
  ⟨by with_unfolding_all rfl, by with_unfolding_all rfl,
   by with_unfolding_all rfl, by decide⟩

/-- Folding the digit-accumulation step from any accumulator. -/
theorem digitsVal_foldl (b : List Char) (acc : ℕ) :
    List.foldl (fun a c => 10 * a + (c.toNat - 48)) acc b
      = acc * 10 ^ b.length + digitsVal b := by
  induction b generalizing acc with
  | nil => simp [digitsVal]
  | cons c b ih =>
    simp only [List.foldl_cons, List.length_cons, digitsVal]
    rw [ih (10 * acc + (c.toNat - 48)), ih (10 * 0 + (c.toNat - 48))]
    ring

/-- The value of concatenated digit strings. -/
theorem digitsVal_append (a b : List Char) :
    digitsVal (a ++ b) = digitsVal a * 10 ^ b.length + digitsVal b := by
  unfold digitsVal
  rw [List.foldl_append, digitsVal_foldl]
  rfl

/-- Leading zero characters do not change the value. -/
theorem digitsVal_replicate_zero (j : ℕ) (b : List Char) :
    digitsVal (List.replicate j '0' ++ b) = digitsVal b := by
  rw [digitsVal_append]
  have h : digitsVal (List.replicate j '0') = 0 := by
    induction j with
    | zero => rfl
    | succ n ih =>
      rw [List.replicate_succ]
      unfold digitsVal at ih ⊢
      simpa using ih
  simp [h]

/-- The code point of a digit character. -/
theorem digitChar_toNat (n : ℕ) (h : n < 10) : (digitChar n).toNat = 48 + n := by
  interval_cases n <;> rfl

/-- A digit character is a digit. -/
theorem digitChar_isDigit (n : ℕ) (h : n < 10) : (digitChar n).isDigit = true := by
  interval_cases n <;> rfl

/-- Reading the rendered digits of `n` back gives `n`, for sufficient fuel. -/
theorem digitsVal_natDigitsGo (fuel : ℕ) :
    ∀ n, n < fuel → digitsVal (natDigitsGo fuel n) = n := by
  induction fuel with
  | zero => intro n hn; omega
  | succ fuel ih =>
    intro n hn
    simp only [natDigitsGo]
    split_ifs with h10
    · unfold digitsVal
      simp [digitChar_toNat n h10]
    · rw [digitsVal_append, ih (n / 10) (by omega)]
      unfold digitsVal
      simp only [List.foldl_cons, List.foldl_nil, List.length_cons, List.length_nil]
      rw [digitChar_toNat (n % 10) (by omega)]
      omega

/-- Every character the digit renderer produces is a digit. -/
theorem natDigitsGo_all_digits (fuel : ℕ) :
    ∀ n, ∀ c ∈ natDigitsGo fuel n, c.isDigit = true := by
  induction fuel with
  | zero => intro n c hc; simp [natDigitsGo] at hc
  | succ fuel ih =>
    intro n c hc
    simp only [natDigitsGo] at hc
    split_ifs at hc with h10
    · simp only [List.mem_singleton] at hc
      exact hc ▸ digitChar_isDigit n h10
    · rcases List.mem_append.mp hc with hc | hc
      · exact ih (n / 10) c hc
      · simp only [List.mem_singleton] at hc
        exact hc ▸ digitChar_isDigit (n % 10) (by omega)

/-- The digit renderer never returns the empty string (with positive fuel). -/
theorem natDigitsGo_ne_nil (fuel n : ℕ) : natDigitsGo (fuel + 1) n ≠ [] := by
  simp only [natDigitsGo]
  split_ifs with h10
  · simp
  · simp

/-- Reading `natDigits n` back gives `n`. -/
theorem digitsVal_natDigits (n : ℕ) : digitsVal (natDigits n) = n :=
  digitsVal_natDigitsGo (n + 1) n (Nat.lt_succ_self n)

/-- `natDigits` produces only digit characters. -/
theorem natDigits_all_digits (n : ℕ) : ∀ c ∈ natDigits n, c.isDigit = true :=
  natDigitsGo_all_digits (n + 1) n

/-- `natDigits` is never empty. -/
theorem natDigits_ne_nil (n : ℕ) : natDigits n ≠ [] :=
  natDigitsGo_ne_nil n n

/-- A digit character is none of the special parser characters. -/
theorem isDigit_ne_special (c : Char) (h : c.isDigit = true) :
    c ≠ '_' ∧ c ≠ '.' ∧ c ≠ '+' ∧ c ≠ '-' ∧ c ≠ ',' ∧ c ≠ 'e' ∧ c ≠ 'E' := by
  refine ⟨?_, ?_, ?_, ?_, ?_, ?_, ?_⟩ <;> intro e <;> subst e <;>
    exact absurd h (by decide)

/-- A digit character is not whitespace. -/
theorem isDigit_not_ws (c : Char) (h : c.isDigit = true) : c.isWhitespace = false := by
  simp only [Char.isWhitespace, Bool.or_eq_false_iff, decide_eq_false_iff_not]
  refine ⟨⟨⟨?_, ?_⟩, ?_⟩, ?_⟩ <;> intro e <;> subst e <;> exact absurd h (by decide)

/-- Lower-casing fixes digit characters. -/
theorem toLower_digit (c : Char) (h : c.isDigit = true) : c.toLower = c := by
  simp only [Char.isDigit, Bool.and_eq_true, decide_eq_true_eq] at h
  have h2 : c.toNat ≤ 57 := h.2
  unfold Char.toLower
  rw [if_neg]
  intro hcon
  omega

/-- A digit character satisfies the digit-run membership test. -/
theorem isDigitU_of_digit (u : Bool) (c : Char) (h : c.isDigit = true) :
    isDigitU u c = true := by
  simp [isDigitU, h]

/-- `'.'` terminates a digit run. -/
theorem isDigitU_dot (u : Bool) : isDigitU u '.' = false := by
  cases u <;> decide

/-- `runOkAux` holds on an all-digit string. -/
theorem runOkAux_all_digits :
    ∀ l : List Char, (∀ c ∈ l, c.isDigit = true) → runOkAux l = true
  | [] => fun _ => rfl
  | [c] => fun h => by simpa [runOkAux] using h c (List.mem_singleton_self c)
  | c :: d :: cs => fun h => by
    have hc : c.isDigit = true := h c (by simp)
    have h1 : ¬(c = '_') := fun e => by
      rw [e] at hc
      exact absurd hc (by decide)
    have ih := runOkAux_all_digits (d :: cs) (fun x hx => h x (List.mem_cons_of_mem c hx))
    simp [runOkAux, h1, hc, ih]

/-- A nonempty all-digit string is a valid digit run. -/
theorem runOk_all_digits (l : List Char) (hne : l ≠ [])
    (h : ∀ c ∈ l, c.isDigit = true) : runOk l = true := by
  cases l with
  | nil => exact absurd rfl hne
  | cons c cs =>
    have hc := h c (by simp)
    have := runOkAux_all_digits cs (fun x hx => h x (List.mem_cons_of_mem c hx))
    simp [runOk, hc, this]

/-- Filtering digits from an all-digit string changes nothing. -/
theorem digitsOnly_all_digits (l : List Char) (h : ∀ c ∈ l, c.isDigit = true) :
    digitsOnly l = l :=
  List.filter_eq_self.mpr h

/-- `takeWhile` across a satisfying prefix followed by a failing character. -/
theorem takeWhile_append_stop (p : Char → Bool) (ds : List Char) (x : Char)
    (rest : List Char) (hds : ∀ c ∈ ds, p c = true) (hx : p x = false) :
    (ds ++ x :: rest).takeWhile p = ds := by
  induction ds with
  | nil => simp [List.takeWhile_cons, hx]
  | cons c ds ih =>
    have hc := hds c (by simp)
    simp only [List.cons_append, List.takeWhile_cons, hc, if_true]
    rw [ih (fun a ha => hds a (List.mem_cons_of_mem c ha))]

/-- `dropWhile` across a satisfying prefix followed by a failing character. -/
theorem dropWhile_append_stop (p : Char → Bool) (ds : List Char) (x : Char)
    (rest : List Char) (hds : ∀ c ∈ ds, p c = true) (hx : p x = false) :
    (ds ++ x :: rest).dropWhile p = x :: rest := by
  induction ds with
  | nil => simp [List.dropWhile_cons, hx]
  | cons c ds ih =>
    have hc := hds c (by simp)
    simp only [List.cons_append, List.dropWhile_cons, hc, if_true]
    exact ih (fun a ha => hds a (List.mem_cons_of_mem c ha))

/-- `takeWhile` on a fully satisfying string. -/
theorem takeWhile_all (p : Char → Bool) (l : List Char)
    (h : ∀ c ∈ l, p c = true) : l.takeWhile p = l := by
  induction l with
  | nil => rfl
  | cons c cs ih =>
    have hc := h c (by simp)
    simp only [List.takeWhile_cons, hc, if_true]
    rw [ih (fun a ha => h a (List.mem_cons_of_mem c ha))]

/-- `dropWhile` on a fully satisfying string. -/
theorem dropWhile_all (p : Char → Bool) (l : List Char)
    (h : ∀ c ∈ l, p c = true) : l.dropWhile p = [] := by
  induction l with
  | nil => rfl
  | cons c cs ih =>
    have hc := h c (by simp)
    simp only [List.dropWhile_cons, hc, if_true]
    exact ih (fun a ha => h a (List.mem_cons_of_mem c ha))

/-- `digitpart` on an all-digit group followed by a stopping character. -/
theorem digitpart_append_stop (u : Bool) (ds : List Char) (x : Char)
    (rest : List Char) (hne : ds ≠ []) (hds : ∀ c ∈ ds, c.isDigit = true)
    (hx : isDigitU u x = false) :
    digitpart u (ds ++ x :: rest) = some (digitsVal ds, ds.length, x :: rest) := by
  have ht : digitRun u (ds ++ x :: rest) = ds :=
    takeWhile_append_stop _ ds x rest (fun c hc => isDigitU_of_digit u c (hds c hc)) hx
  have hd : digitRest u (ds ++ x :: rest) = x :: rest :=
    dropWhile_append_stop _ ds x rest (fun c hc => isDigitU_of_digit u c (hds c hc)) hx
  simp only [digitpart, ht, hd, runOk_all_digits ds hne hds, if_true,
    digitsOnly_all_digits ds hds]

/-- `digitpart` on an all-digit final group. -/
theorem digitpart_all (u : Bool) (ds : List Char) (hne : ds ≠ [])
    (hds : ∀ c ∈ ds, c.isDigit = true) :
    digitpart u ds = some (digitsVal ds, ds.length, []) := by
  have ht : digitRun u ds = ds :=
    takeWhile_all _ ds (fun c hc => isDigitU_of_digit u c (hds c hc))
  have hd : digitRest u ds = [] :=
    dropWhile_all _ ds (fun c hc => isDigitU_of_digit u c (hds c hc))
  simp only [digitpart, ht, hd, runOk_all_digits ds hne hds, if_true,
    digitsOnly_all_digits ds hds]

/-- Every character of `renderDigits` is a digit. -/
theorem renderDigits_all_digits (q : ℚ) : ∀ c ∈ renderDigits q, c.isDigit = true := by
  intro c hc
  unfold renderDigits leftPad at hc
  rcases List.mem_append.mp hc with hc | hc
  · rw [List.eq_of_mem_replicate hc]
    decide
  · exact natDigits_all_digits _ c hc

/-- `renderDigits` is long enough to split off `q.den` fractional digits. -/
theorem renderDigits_length (q : ℚ) : q.den + 1 ≤ (renderDigits q).length := by
  unfold renderDigits leftPad
  rw [List.length_append, List.length_replicate]
  omega

/-- The integer-part digits are a nonempty all-digit string. -/
theorem renderIp_spec (q : ℚ) :
    renderIp q ≠ [] ∧ ∀ c ∈ renderIp q, c.isDigit = true := by
  constructor
  · have hlen := renderDigits_length q
    have : (renderIp q).length = (renderDigits q).length - q.den := by
      unfold renderIp
      rw [List.length_take]
      omega
    intro hnil
    rw [hnil] at this
    simp at this
    omega
  · intro c hc
    exact renderDigits_all_digits q c (List.take_subset _ _ hc)

/-- The fractional-part digits are a nonempty all-digit string of length
`q.den`. -/
theorem renderFp_spec (q : ℚ) :
    renderFp q ≠ [] ∧ (∀ c ∈ renderFp q, c.isDigit = true)
      ∧ (renderFp q).length = q.den := by
  have hlen := renderDigits_length q
  have hl : (renderFp q).length = q.den := by
    unfold renderFp
    rw [List.length_drop]
    omega
  refine ⟨?_, ?_, hl⟩
  · intro hnil
    rw [hnil] at hl
    have := q.pos
    simp at hl
    omega
  · intro c hc
    exact renderDigits_all_digits q c (List.drop_subset _ _ hc)

/-- Splitting and rejoining the rendered digits. -/
theorem renderIp_append_renderFp (q : ℚ) :
    renderIp q ++ renderFp q = renderDigits q :=
  List.take_append_drop _ _

/-- The value of the full rendered digit string. -/
theorem digitsVal_renderDigits (q : ℚ) :
    digitsVal (renderDigits q) = (q * (10 : ℚ) ^ q.den).num.natAbs := by
  unfold renderDigits leftPad
  rw [digitsVal_replicate_zero, digitsVal_natDigits]

/-- The exponent of the empty remainder. -/
theorem expFactor_zero : expFactor 0 = 1 := by
  simp [expFactor]

/-- `pyNumber` on `digits.digits` evaluates the two digit groups. -/
theorem pyNumber_digits_dot (u : Bool) (ip fp : List Char) (hipne : ip ≠ [])
    (hip : ∀ c ∈ ip, c.isDigit = true) (hfpne : fp ≠ [])
    (hfp : ∀ c ∈ fp, c.isDigit = true) :
    pyNumber u (ip ++ '.' :: fp)
      = some (((digitsVal ip * 10 ^ fp.length + digitsVal fp : ℕ) : ℚ) / 10 ^ fp.length) := by
  obtain ⟨c, ip', rfl⟩ : ∃ c ip', ip = c :: ip' := by
    cases ip with
    | nil => exact absurd rfl hipne
    | cons c ip' => exact ⟨c, ip', rfl⟩
  have hc := hip c (by simp)
  have hdot := (isDigit_ne_special c hc).2.1
  rw [List.cons_append]
  simp only [pyNumber, List.headD_cons, if_neg hdot]
  rw [← List.cons_append]
  rw [digitpart_append_stop u (c :: ip') '.' fp (by simp) hip (isDigitU_dot u)]
  simp only [List.headD_cons, if_pos rfl, List.tail_cons]
  rw [digitpart_all u fp hfpne hfp]
  simp only [pyExpPart]
  rw [expFactor_zero, mul_one]
  simp

/-- `dropWhile` keeps a list whose every element fails the test. -/
theorem dropWhile_none (p : Char → Bool) (l : List Char)
    (h : ∀ c ∈ l, p c = false) : l.dropWhile p = l := by
  cases l with
  | nil => rfl
  | cons c cs => simp [List.dropWhile_cons, h c (by simp)]

/-- Stripping a whitespace-free string changes nothing. -/
theorem stripList_no_ws (l : List Char) (h : ∀ c ∈ l, c.isWhitespace = false) :
    stripList l = l := by
  unfold stripList
  rw [dropWhile_none _ l h,
    dropWhile_none _ l.reverse (fun c hc => h c (List.mem_reverse.mp hc)),
    List.reverse_reverse]

/-- The special-word test fails on a string starting with a digit. -/
theorem isInfNan_digit_head (c : Char) (l : List Char) (hc : c.isDigit = true) :
    isInfNan (c :: l) = false := by
  simp only [isInfNan, List.map_cons, toLower_digit c hc,
    Bool.or_eq_false_iff, decide_eq_false_iff_not]
  refine ⟨⟨?_, ?_⟩, ?_⟩ <;> intro e <;> injection e with h1 h2 <;>
    rw [h1] at hc <;> exact absurd hc (by decide)

/-- Every character of the rendering of a rational is non-whitespace and is
not a comma. -/
theorem renderQ_chars (q : ℚ) :
    ∀ c ∈ (renderQ q).toList, c.isWhitespace = false ∧ c ≠ ',' := by
  intro c hc
  have hdef : (renderQ q).toList
      = (if q < 0 then ['-'] else []) ++ renderIp q ++ '.' :: renderFp q := rfl
  rw [hdef] at hc
  rcases List.mem_append.mp hc with hc | hc
  · rcases List.mem_append.mp hc with hc | hc
    · split_ifs at hc with hneg
      · rw [List.mem_singleton.mp hc]
        exact ⟨by decide, by decide⟩
      · simp at hc
    · have hd := (renderIp_spec q).2 c hc
      exact ⟨isDigit_not_ws c hd, (isDigit_ne_special c hd).2.2.2.2.1⟩
  · rcases List.mem_cons.mp hc with rfl | hc
    · exact ⟨by decide, by decide⟩
    · have hd := (renderFp_spec q).2.1 c hc
      exact ⟨isDigit_not_ws c hd, (isDigit_ne_special c hd).2.2.2.2.1⟩

/-- The rendered integer part starts with a digit. -/
theorem renderIp_cons (q : ℚ) :
    ∃ c ip', renderIp q = c :: ip' ∧ c.isDigit = true := by
  obtain ⟨hipne, hip⟩ := renderIp_spec q
  cases h : renderIp q with
  | nil => exact absurd h hipne
  | cons c ip' => exact ⟨c, ip', rfl, hip c (h ▸ List.mem_cons_self c ip')⟩

/-- Sign-stripping the rendering of `q` exposes the digits-dot-digits body. -/
theorem stripSign_renderQ (q : ℚ) :
    stripSign (stripList (renderQ q).toList)
      = (if q < 0 then (-1 : ℤ) else 1, renderIp q ++ '.' :: renderFp q) := by
  have hstrip : stripList (renderQ q).toList = (renderQ q).toList :=
    stripList_no_ws _ (fun c hc => (renderQ_chars q c hc).1)
  rw [hstrip]
  obtain ⟨c, ip', hipeq, hc⟩ := renderIp_cons q
  by_cases hneg : q < 0
  · have hlist : (renderQ q).toList = '-' :: (renderIp q ++ '.' :: renderFp q) := by
      show (if q < 0 then ['-'] else []) ++ renderIp q ++ '.' :: renderFp q = _
      rw [if_pos hneg]
      simp
    rw [hlist]
    simp only [stripSign, List.headD_cons, List.tail_cons]
    rw [if_pos trivial, if_pos hneg, if_neg (show ('-' : Char) ≠ '+' by decide)]
  · have hlist : (renderQ q).toList = renderIp q ++ '.' :: renderFp q := by
      show (if q < 0 then ['-'] else []) ++ renderIp q ++ '.' :: renderFp q = _
      rw [if_neg hneg]
      simp
    rw [hlist, hipeq, List.cons_append]
    simp only [stripSign, List.headD_cons]
    rw [if_neg (isDigit_ne_special c hc).2.2.1,
      if_neg (isDigit_ne_special c hc).2.2.2.1, if_neg hneg,
      ← List.cons_append, ← hipeq]

/-- The rendered body is not one of the special float words. -/
theorem isInfNan_renderBody (q : ℚ) :
    isInfNan (renderIp q ++ '.' :: renderFp q) = false := by
  obtain ⟨c, ip', hipeq, hc⟩ := renderIp_cons q
  rw [hipeq, List.cons_append]
  exact isInfNan_digit_head c _ hc

/-- `pyNumber` reads the rendered body back as the scaled absolute value. -/
theorem pyNumber_renderBody (u : Bool) (q : ℚ) :
    pyNumber u (renderIp q ++ '.' :: renderFp q)
      = some (((q * (10 : ℚ) ^ q.den).num.natAbs : ℚ) / 10 ^ q.den) := by
  obtain ⟨hipne, hip⟩ := renderIp_spec q
  obtain ⟨hfpne, hfp, hfl⟩ := renderFp_spec q
  rw [pyNumber_digits_dot u _ _ hipne hip hfpne hfp, hfl]
  have hval : digitsVal (renderIp q) * 10 ^ q.den + digitsVal (renderFp q)
      = (q * (10 : ℚ) ^ q.den).num.natAbs := by
    have h := digitsVal_append (renderIp q) (renderFp q)
    rw [renderIp_append_renderFp, digitsVal_renderDigits, hfl] at h
    omega
  rw [← hval]

/-- The numerator of a denominator-one rational is the rational itself. -/
theorem num_cast_of_den_one (x : ℚ) (hx : x.den = 1) : ((x.num : ℚ)) = x := by
  have h0 := Rat.num_div_den x
  rw [hx] at h0
  simpa using h0

/-- Reparsing the rendering of a rational whose denominator divides a power of
ten recovers it exactly: export followed by numeric coercion is lossless on
such cells. -/
theorem toNumericCell_renderQ (q : ℚ) (hq : (q * (10 : ℚ) ^ q.den).den = 1) :
    toNumericCell (renderQ q) = some q := by
  simp only [toNumericCell, stripSign_renderQ, isInfNan_renderBody,
    pyNumber_renderBody, Option.map_some']
  have habs : ((q * (10 : ℚ) ^ q.den).num.natAbs : ℚ) = |q * 10 ^ q.den| := by
    rw [Int.cast_natAbs, Int.cast_abs, num_cast_of_den_one _ hq]
  have hpow : (10 : ℚ) ^ q.den ≠ 0 := by positivity
  by_cases hneg : q < 0
  · rw [if_pos hneg, habs,
      abs_of_neg (mul_neg_of_neg_of_pos hneg (by positivity))]
    push_cast
    field_simp
  · rw [if_neg hneg, habs, abs_of_nonneg (mul_nonneg (not_lt.mp hneg) (by positivity))]
    push_cast
    field_simp

/-- The header detector's float test accepts every rendered rational. -/
theorem pyFloatAccepts_renderQ (q : ℚ) : pyFloatAccepts (renderQ q) = true := by
  simp only [pyFloatAccepts, stripSign_renderQ, isInfNan_renderBody,
    pyNumber_renderBody, Option.isSome_some, Bool.or_true]

/-- A character of the cell rendering is non-whitespace and not a comma. -/
theorem renderCell_chars (cell : Cell) :
    ∀ c ∈ (renderCell cell).toList, c.isWhitespace = false ∧ c ≠ ',' := by
  cases cell with
  | none => intro c hc; simp [renderCell] at hc
  | some q => exact fun c hc => renderQ_chars q c hc

/-- A missing cell reads back as missing. -/
theorem toNumericCell_empty : toNumericCell "" = none := rfl

/-- Reparsing any rendered cell whose value's denominator divides a power of
ten recovers the cell. -/
theorem toNumericCell_renderCell (cell : Cell)
    (h : ∀ q, cell = some q → (q * (10 : ℚ) ^ q.den).den = 1) :
    toNumericCell (renderCell cell) = cell := by
  cases cell with
  | none => rfl
  | some q => exact toNumericCell_renderQ q (h q rfl)

/-- A packed character list equals the empty string only when it is empty. -/
theorem string_mk_eq_empty_iff (l : List Char) : (⟨l⟩ : String) = "" ↔ l = [] := by
  constructor
  · intro h
    have h2 : (⟨l⟩ : String).toList = ("" : String).toList := by rw [h]
    simpa using h2
  · intro h
    rw [h]

/-- An element failing the test survives `dropWhile`. -/
theorem mem_dropWhile_of_not (p : Char → Bool) (c : Char) (l : List Char)
    (hc : c ∈ l) (hp : p c = false) : c ∈ l.dropWhile p := by
  induction l with
  | nil => cases hc
  | cons a ls ih =>
    by_cases pa : p a = true
    · rcases List.mem_cons.mp hc with rfl | hc2
      · rw [pa] at hp
        cases hp
      · simp only [List.dropWhile_cons, pa, if_true]
        exact ih hc2
    · have pa2 : p a = false := by simpa using pa
      rw [List.dropWhile_cons, if_neg (by simp [pa2])]
      exact hc

/-- A non-whitespace character survives stripping. -/
theorem mem_stripList (c : Char) (l : List Char) (hc : c ∈ l)
    (hw : c.isWhitespace = false) : c ∈ stripList l := by
  unfold stripList
  rw [List.mem_reverse]
  exact mem_dropWhile_of_not _ c _
    (List.mem_reverse.mpr (mem_dropWhile_of_not _ c l hc hw)) hw

/-- Splitting a joined record recovers the parts, provided no part contains
the separator. -/
theorem pySplitComma_joinComma (parts : List String) (hne : parts ≠ [])
    (h : ∀ p ∈ parts, ',' ∉ p.toList) :
    pySplitComma (joinComma parts) = parts := by
  unfold pySplitComma joinComma
  have htl : (⟨List.intercalate [','] (parts.map String.toList)⟩ : String).toList
      = List.intercalate [','] (parts.map String.toList) := rfl
  rw [htl]
  rw [List.splitOn_intercalate (parts.map String.toList) ','
    (by
      intro l hl
      obtain ⟨p, hp, rfl⟩ := List.mem_map.mp hl
      exact h p hp)
    (by
      intro e
      exact hne (List.map_eq_nil_iff.mp e))]
  rw [List.map_map]
  exact List.map_id'' (fun s => rfl) parts

/-- Every character of a joined record is a separator or belongs to one of
the parts. -/
theorem mem_joinComma (parts : List String) (c : Char)
    (hc : c ∈ (joinComma parts).toList) : c = ',' ∨ ∃ p ∈ parts, c ∈ p.toList := by
  induction parts with
  | nil => simp [joinComma, List.intercalate] at hc
  | cons a parts ih =>
    cases parts with
    | nil =>
      right
      refine ⟨a, by simp, ?_⟩
      simpa [joinComma, List.intercalate] using hc
    | cons b parts2 =>
      have hsplit : (joinComma (a :: b :: parts2)).toList
          = a.toList ++ [','] ++ (joinComma (b :: parts2)).toList := by
        show List.intercalate [','] ((a :: b :: parts2).map String.toList) = _
        simp [joinComma, List.intercalate, List.intersperse_cons_cons]
      rw [hsplit] at hc
      rcases List.mem_append.mp hc with hc | hc
      · rcases List.mem_append.mp hc with hc | hc
        · exact Or.inr ⟨a, by simp, hc⟩
        · exact Or.inl (List.mem_singleton.mp hc)
      · rcases ih hc with hc | ⟨p, hp, hcp⟩
        · exact Or.inl hc
        · exact Or.inr ⟨p, List.mem_cons_of_mem a hp, hcp⟩

/-- A record of at least two fields contains the separator. -/
theorem comma_mem_joinComma (a b : String) (parts : List String) :
    ',' ∈ (joinComma (a :: b :: parts)).toList := by
  have hsplit : (joinComma (a :: b :: parts)).toList
      = a.toList ++ [','] ++ (joinComma (b :: parts)).toList := by
    show List.intercalate [','] ((a :: b :: parts).map String.toList) = _
    simp [joinComma, List.intercalate, List.intersperse_cons_cons]
  rw [hsplit]
  exact List.mem_append.mpr (Or.inl (List.mem_append.mpr (Or.inr (by simp))))

/-- Stripping a whitespace-free string is the identity. -/
theorem pyStrip_eq_self_of_no_ws (s : String)
    (h : ∀ c ∈ s.toList, c.isWhitespace = false) : pyStrip s = s := by
  unfold pyStrip
  rw [stripList_no_ws _ h]
  rfl

/-- A string containing a comma does not strip to the empty string. -/
theorem pyStrip_ne_empty_of_comma (s : String) (h : ',' ∈ s.toList) :
    pyStrip s ≠ "" := by
  unfold pyStrip
  rw [Ne, string_mk_eq_empty_iff]
  intro e
  have hmem := mem_stripList ',' s.toList h (by decide)
  rw [e] at hmem
  cases hmem

/-- A string containing a comma is not the empty string. -/
theorem ne_empty_of_comma (s : String) (h : ',' ∈ s.toList) : s ≠ "" := by
  intro e
  rw [e] at h
  cases h

/-- On the lines written by `toCsvLines` for a table with at least 2 columns,
rectangular rows, and a present first cell in the first row, the header
detector returns 0: either the header line's own leading field parses as a
float (index 0 gives `max 0 (0-1) = 0`), or the first data line — physical
index 1, whose leading field is a rendered rational — does (`max 0 (1-1) =
0`). -/
theorem detectar_toCsvLines (df : DataFrame)
    (hcols2 : 2 ≤ df.columns.length)
    (hrect : ∀ r ∈ df.rows, r.length = df.columns.length)
    (hrows : df.rows ≠ [])
    (hfirst : ∃ q, (df.rows.headD []).headD none = some q) :
    detectar_lineas_encabezado (toCsvLines df) = 0 := by
  obtain ⟨q, hq⟩ := hfirst
  obtain ⟨r0, rest, hrows_eq⟩ : ∃ r0 rest, df.rows = r0 :: rest := by
    cases h : df.rows with
    | nil => exact absurd h hrows
    | cons a b => exact ⟨a, b, rfl⟩
  rw [hrows_eq] at hq
  simp only [List.headD_cons] at hq
  obtain ⟨r0t, hr0⟩ : ∃ r0t, r0 = some q :: r0t := by
    cases h : r0 with
    | nil => rw [h] at hq; simp at hq
    | cons c r0t =>
      rw [h] at hq
      simp only [List.headD_cons] at hq
      exact ⟨r0t, by rw [hq]⟩
  obtain ⟨c0, c1, crest, hcols_eq⟩ : ∃ c0 c1 crest, df.columns = c0 :: c1 :: crest := by
    cases h1 : df.columns with
    | nil => rw [h1] at hcols2; simp at hcols2
    | cons c0 t =>
      cases h2 : t with
      | nil => rw [h1, h2] at hcols2; simp at hcols2
      | cons c1 crest => exact ⟨c0, c1, crest, rfl⟩
  have hline_comma : ',' ∈ (joinComma df.columns).toList := by
    rw [hcols_eq]
    exact comma_mem_joinComma c0 c1 crest
  have hr0_len : r0.length = df.columns.length := hrect r0 (hrows_eq ▸ List.mem_cons_self r0 rest)
  obtain ⟨cc1, ccrest, hcells_eq⟩ :
      ∃ b t, r0.map renderCell = renderCell (some q) :: b :: t := by
    cases ht : r0t with
    | nil =>
      rw [hr0, ht] at hr0_len
      rw [hcols_eq] at hr0_len
      simp at hr0_len
    | cons x xs => exact ⟨renderCell x, xs.map renderCell, by rw [hr0, ht]; rfl⟩
  have hrow_comma : ',' ∈ (joinComma (r0.map renderCell)).toList := by
    rw [hcells_eq]
    exact comma_mem_joinComma _ _ _
  have htcl : toCsvLines df
      = joinComma df.columns :: joinComma (r0.map renderCell)
        :: rest.map (fun r => joinComma (r.map renderCell)) := by
    unfold toCsvLines
    rw [hrows_eq]
    rfl
  rw [detectar_lineas_encabezado, htcl]
  simp only [detectarGo]
  rw [if_neg (pyStrip_ne_empty_of_comma _ hline_comma)]
  by_cases hb : pyFloatAccepts (primeraParte (pyStrip (joinComma df.columns))) = true
  · rw [if_pos hb]
    decide
  · rw [if_neg hb]
    have hrow_strip : pyStrip (joinComma (r0.map renderCell)) = joinComma (r0.map renderCell) := by
      apply pyStrip_eq_self_of_no_ws
      intro c hc
      rcases mem_joinComma _ c hc with rfl | ⟨p, hp, hcp⟩
      · decide
      · obtain ⟨cell, hcell, rfl⟩ := List.mem_map.mp hp
        exact (renderCell_chars cell c hcp).1
    have hsplit_row : pySplitComma (joinComma (r0.map renderCell)) = r0.map renderCell := by
      apply pySplitComma_joinComma
      · rw [hcells_eq]
        simp
      · intro p hp hcomma
        obtain ⟨cell, hcell, rfl⟩ := List.mem_map.mp hp
        exact absurd rfl ((renderCell_chars cell ',' hcomma).2)
    have hprim : primeraParte (joinComma (r0.map renderCell)) = renderQ q := by
      unfold primeraParte
      rw [hsplit_row, hcells_eq]
      simp only [List.headD_cons, renderCell]
      exact pyStrip_eq_self_of_no_ws _ (fun c hc => (renderQ_chars q c hc).1)
    rw [hrow_strip]
    rw [if_neg (ne_empty_of_comma _ hrow_comma)]
    rw [hprim, if_pos (pyFloatAccepts_renderQ q)]
    decide

/-- Padding a record already at the header width changes nothing. -/
theorem padTo_self (n : ℕ) (l : List String) (h : l.length = n) : padTo n l = l := by
  unfold padTo
  rw [h]
  simp

/-- Parsing back the lines written by `toCsvLines` with no skipped lines
recovers the column names and the rendered cells, for a table with at least 2
comma-free column names and rectangular rows. -/
theorem read_csv_toCsvLines (df : DataFrame)
    (hcols2 : 2 ≤ df.columns.length)
    (hnames : ∀ c ∈ df.columns, ',' ∉ c.toList)
    (hrect : ∀ r ∈ df.rows, r.length = df.columns.length) :
    read_csv (toCsvLines df) 0
      = .ok ⟨df.columns, df.rows.map (fun r => r.map renderCell)⟩ := by
  obtain ⟨c0, c1, crest, hcols_eq⟩ : ∃ c0 c1 crest, df.columns = c0 :: c1 :: crest := by
    cases h1 : df.columns with
    | nil => rw [h1] at hcols2; simp at hcols2
    | cons c0 t =>
      cases h2 : t with
      | nil => rw [h1, h2] at hcols2; simp at hcols2
      | cons c1 crest => exact ⟨c0, c1, crest, rfl⟩
  have hrow_split : ∀ r ∈ df.rows,
      pySplitComma (joinComma (r.map renderCell)) = r.map renderCell := by
    intro r hr
    apply pySplitComma_joinComma
    · have h2 := hrect r hr
      rw [hcols_eq] at h2
      cases r with
      | nil => simp at h2
      | cons a b => simp
    · intro p hp hcomma
      obtain ⟨cell, hcell, rfl⟩ := List.mem_map.mp hp
      exact absurd rfl ((renderCell_chars cell ',' hcomma).2)
  have hrow_comma : ∀ r ∈ df.rows, ',' ∈ (joinComma (r.map renderCell)).toList := by
    intro r hr
    have h2 := hrect r hr
    rw [hcols_eq] at h2
    cases r with
    | nil => simp at h2
    | cons a b =>
      cases b with
      | nil => simp at h2
      | cons x y =>
        simp only [List.map_cons]
        exact comma_mem_joinComma _ _ _
  have hline_comma : ',' ∈ (joinComma df.columns).toList := by
    rw [hcols_eq]
    exact comma_mem_joinComma c0 c1 crest
  have hfilter : (toCsvLines df).filter (fun l => l != "") = toCsvLines df := by
    apply List.filter_eq_self.mpr
    intro l hl
    rw [bne_iff_ne]
    unfold toCsvLines at hl
    rcases List.mem_cons.mp hl with rfl | hl
    · exact ne_empty_of_comma _ hline_comma
    · obtain ⟨r, hr, rfl⟩ := List.mem_map.mp hl
      exact ne_empty_of_comma _ (hrow_comma r hr)
  have hsplit_cols : pySplitComma (joinComma df.columns) = df.columns := by
    apply pySplitComma_joinComma
    · rw [hcols_eq]
      simp
    · exact hnames
  have hall : (df.rows.map (fun r => joinComma (r.map renderCell))).all
      (fun r => (pySplitComma r).length ≤ df.columns.length) = true := by
    simp only [List.all_eq_true]
    intro rl hrl
    obtain ⟨r, hr, rfl⟩ := List.mem_map.mp hrl
    rw [hrow_split r hr, List.length_map, hrect r hr]
    simp
  have htcl : toCsvLines df
      = joinComma df.columns :: df.rows.map (fun r => joinComma (r.map renderCell)) := rfl
  unfold read_csv
  rw [List.drop_zero, hfilter, htcl]
  simp only [hsplit_cols]
  rw [if_pos hall]
  congr 1
  congr 1
  rw [List.map_map]
  apply List.map_congr_left
  intro r hr
  show padTo df.columns.length (pySplitComma (joinComma (r.map renderCell))) = r.map renderCell
  rw [hrow_split r hr]
  exact padTo_self _ _ (by rw [List.length_map, hrect r hr])

/-- Looking every column name up by its own index reassembles the row. -/
theorem map_getD_indexOf (cols : List String) (r : List Cell)
    (hnd : cols.Nodup) (hlen : r.length = cols.length) :
    cols.map (fun c => r.getD (cols.indexOf c) none) = r := by
  induction cols generalizing r with
  | nil =>
    cases r with
    | nil => rfl
    | cons x r' => simp at hlen
  | cons c cols ih =>
    cases r with
    | nil => simp at hlen
    | cons x r' =>
      simp only [List.map_cons]
      have hstep : ∀ c' ∈ cols,
          (x :: r').getD ((c :: cols).indexOf c') none
            = r'.getD (cols.indexOf c') none := by
        intro c' hc'
        have hne : c ≠ c' := fun e => (List.nodup_cons.mp hnd).1 (e ▸ hc')
        rw [List.indexOf_cons_ne _ hne]
        rfl
      rw [List.indexOf_cons_self]
      rw [List.map_congr_left hstep]
      rw [ih r' (List.nodup_cons.mp hnd).2 (by simpa using hlen)]
      rfl

/-- Selecting all columns of a table with distinct names and rectangular rows
is the identity. -/
theorem selectColumns_self (df : DataFrame) (hnodup : df.columns.Nodup)
    (hrect : ∀ r ∈ df.rows, r.length = df.columns.length) :
    selectColumns df df.columns = df := by
  unfold selectColumns
  have hrows : df.rows.map
      (fun r => df.columns.map (fun c => r.getD (df.columns.indexOf c) none))
      = df.rows := by
    have h := List.map_congr_left
      (fun r hr => map_getD_indexOf df.columns r hnodup (hrect r hr))
    rw [h]
    simp
  rw [hrows]

/-- Exporting with the full column list keeps the column list as requested. -/
theorem exportar_todas (df : DataFrame) (c0 : String) (rest : List String)
    (hcols : df.columns = c0 :: rest) :
    exportar_datos_filtrados (some df) df.columns
      = .ok (toCsvLines (selectColumns df df.columns)) := by
  rcases df with ⟨cols, rows⟩
  simp only at hcols
  subst hcols
  have hmem : c0 ∈ c0 :: rest := List.mem_cons_self c0 rest
  have hall : ((c0 :: rest).all
      (fun c => decide (c ∈ (DataFrame.mk (c0 :: rest) rows).columns))) = true := by
    simp only [List.all_eq_true, decide_eq_true_eq]
    exact fun x hx => hx
  simp only [exportar_datos_filtrados, if_pos hmem, hall, if_true]

/-- A cell value's denominator divides a power of ten (true of every value a
load can produce, floats being binary fractions). -/
def denDiezPotencia : Cell → Bool
  | none => true
  | some q => (q * (10 : ℚ) ^ q.den).den = 1

/-- C8 amended: for a validly loaded table — rectangular, distinct trimmed
comma-free column names, cell values whose denominators divide a power of ten
— WHOSE FIRST ROW'S FIRST CELL IS PRESENT, exporting all columns writes
`toCsvLines` and reloading that file yields exactly the original table: same
columns, same rows, same row count.  (Without the first-cell condition the
detector misfires and rows are lost, as the counterexample shows.) -/
theorem c8_enmendado (df : DataFrame)
    (hval : validar_datos (some df) = .ok ())
    (hrect : ∀ r ∈ df.rows, r.length = df.columns.length)
    (hnames : ∀ c ∈ df.columns, pyStrip c = c ∧ ',' ∉ c.toList)
    (hnodup : df.columns.Nodup)
    (hcells : ∀ r ∈ df.rows, ∀ cell ∈ r, denDiezPotencia cell = true)
    (hfirst : ∃ q, (df.rows.headD []).headD none = some q) :
    exportar_datos_filtrados (some df) df.columns = .ok (toCsvLines df)
    ∧ ∀ h ruta, (cargar_csv h (fun _ => .ok (toCsvLines df)) ruta).2 = .ok df := by
  have hshape : 2 ≤ df.columns.length ∧ 1 ≤ df.rows.length := by
    simp only [validar_datos] at hval
    split_ifs at hval with h1 h2 h3
    exact ⟨by omega, by omega⟩
  have hrowsne : df.rows ≠ [] := by
    intro e
    have h2 := hshape.2
    rw [e] at h2
    simp at h2
  have hdet := detectar_toCsvLines df hshape.1 hrect hrowsne hfirst
  have hread := read_csv_toCsvLines df hshape.1 (fun c hc => (hnames c hc).2) hrect
  have hstrip : stripColumns ⟨df.columns, df.rows.map (fun r => r.map renderCell)⟩
      = ⟨df.columns, df.rows.map (fun r => r.map renderCell)⟩ := by
    unfold stripColumns
    have h := List.map_congr_left (fun c hc => (hnames c hc).1)
    simp only at h ⊢
    rw [h]
    simp
  have hconv : convertir_a_numerico ⟨df.columns, df.rows.map (fun r => r.map renderCell)⟩
      = df := by
    unfold convertir_a_numerico
    conv_rhs => rw [show df = ⟨df.columns, df.rows⟩ from rfl]
    congr 1
    rw [List.map_map]
    have hpt : ∀ r ∈ df.rows, (List.map toNumericCell ∘ List.map renderCell) r = r := by
      intro r hr
      show (r.map renderCell).map toNumericCell = r
      rw [List.map_map]
      have hcell : ∀ cell ∈ r, (toNumericCell ∘ renderCell) cell = cell := by
        intro cell hc
        show toNumericCell (renderCell cell) = cell
        apply toNumericCell_renderCell
        intro q hq
        have hd := hcells r hr cell hc
        rw [hq] at hd
        simpa [denDiezPotencia] using hd
      rw [List.map_congr_left hcell]
      simp
    rw [List.map_congr_left hpt]
    simp
  constructor
  · obtain ⟨c0, rest, hcols_eq⟩ : ∃ c0 rest, df.columns = c0 :: rest := by
      cases h1 : df.columns with
      | nil =>
        rw [h1] at hshape
        simp at hshape
      | cons a b => exact ⟨a, b, rfl⟩
    have hmem : c0 ∈ df.columns := by
      rw [hcols_eq]
      exact List.mem_cons_self c0 rest
    have hsel := selectColumns_self df hnodup hrect
    rw [exportar_todas df c0 rest hcols_eq, hsel]
  · intro h ruta
    simp only [cargar_csv, hdet, hread, hstrip, hconv, hval]

/-- A valid table with a present first cell, for the round-trip witness. -/
def tablaRedonda : DataFrame :=
  ⟨["t", "ch1"], [[some 0, some (3 / 2)], [some 1, none]]⟩

/-- Witness for the amended C8: `tablaRedonda` exports and reloads to itself. -/
theorem c8_enmendado_witness :
    exportar_datos_filtrados (some tablaRedonda) tablaRedonda.columns
      = .ok (toCsvLines tablaRedonda)
    ∧ (cargar_csv ⟨none, none⟩ (fun _ => .ok (toCsvLines tablaRedonda)) "out.csv").2
      = .ok tablaRedonda := by
  have h := c8_enmendado tablaRedonda (by with_unfolding_all rfl) (by decide)
    (by decide) (by decide) (by with_unfolding_all decide) ⟨0, rfl⟩
  exact ⟨h.1, h.2 ⟨none, none⟩ "out.csv"⟩
